import Mathlib

/-!
Verification of the DataTable view pipeline (search → sort → paginate) of the
HA-Intelligence-Hub dashboard.  The definitions below are a shallow embedding
of `DataTable.jsx` (the reusable data table component) and of its two helper
hooks.  The comparator, the sort-state toggle, the `hasFirst`/`hasLast`
flags, the `safeData` fallback and the empty-state message are translated
from `DataTable.jsx`; the hooks `useSearch.js` and `usePagination.js` are
imported by the component but their files are not part of the source tree,
so they are modelled from the specification (each such definition says so in
its doc comment).

JS numbers are modelled as `Int` (no claim exercises non-integral values);
`null` and `undefined` collapse into one `Value.null` constructor, matching
the `== null` checks of the source.  `Array.prototype.sort` with a comparator
is modelled as a stable insertion sort driven by the sign of the comparator,
which is the ECMAScript-guaranteed behaviour for consistent comparators.
-/

namespace DataTable

/-- A JS value stored in a record field: a number (modelled as `Int`), a
string, or `null`/`undefined` (both collapse to `.null`). -/
inductive Value where
  | num (n : Int)
  | str (s : String)
  | null
deriving DecidableEq

/-- One table row: a field-name-to-value mapping.  Indexing a missing field
in JS yields `undefined`, modelled by `get` returning `.null`. -/
structure Record where
  fields : List (String × Value)
deriving DecidableEq

/-- Field access `row[key]`; a missing field reads as `.null`. -/
def Record.get (r : Record) (k : String) : Value :=
  match r.fields.lookup k with
  | some v => v
  | none => Value.null

/-- The `== null` test of the source (true for both `null` and `undefined`). -/
def Value.isNull : Value → Bool
  | .null => true
  | _ => false

/-- The `typeof v === 'number'` test of the source. -/
def Value.isNum : Value → Bool
  | .num _ => true
  | _ => false

/-- JS `String(v)` coercion for the values the comparator and the search can
see.  `Int.toString` agrees with JS decimal printing of integers. -/
def Value.jsString : Value → String
  | .num n => toString n
  | .str s => s
  | .null => "null"

/-- Comparison of two naturals written out as the sign of their difference,
mirroring how JS compares digit-run values and character codes. -/
def natCmp (a b : Nat) : Ordering :=
  if a < b then .lt else if b < a then .gt else .eq

/-- Token of the collation model: a maximal digit run (kept by numeric value)
or a single case-folded character. -/
inductive Tok where
  | numTok (v : Nat)
  | chrTok (c : Char)
deriving DecidableEq

/-- Token comparison: digit runs numerically, digit runs before other
characters, other characters by case-folded code point. -/
def tokCmp : Tok → Tok → Ordering
  | .numTok a, .numTok b => natCmp a b
  | .numTok _, .chrTok _ => .lt
  | .chrTok _, .numTok _ => .gt
  | .chrTok a, .chrTok b => natCmp a.toNat b.toNat

/-- Tokenizer of the collation model: `acc` carries the numeric value of the
digit run in progress; non-digit characters are case-folded. -/
def tokenizeAux : List Char → Option Nat → List Tok
  | [], none => []
  | [], some v => [.numTok v]
  | c :: cs, none =>
    if c.isDigit then tokenizeAux cs (some (c.toNat - 48))
    else .chrTok c.toLower :: tokenizeAux cs none
  | c :: cs, some v =>
    if c.isDigit then tokenizeAux cs (some (v * 10 + (c.toNat - 48)))
    else .numTok v :: .chrTok c.toLower :: tokenizeAux cs none

/-- Lexicographic comparison of token lists. -/
def lexCmp : List Tok → List Tok → Ordering
  | [], [] => .eq
  | [], _ :: _ => .lt
  | _ :: _, [] => .gt
  | a :: as, b :: bs =>
    match tokCmp a b with
    | .eq => lexCmp as bs
    | o => o

/-- The sign `localeCompare` reports, as an integer. -/
def ordToInt : Ordering → Int
  | .lt => -1
  | .eq => 0
  | .gt => 1

/-- Model of the ECMAScript builtin
`x.localeCompare(y, undefined, \x7b numeric: true, sensitivity: 'base' \x7d)`
called by the comparator: case-insensitive comparison in which embedded digit
runs are compared by numeric value (ICU natural collation, restricted here to
ASCII case folding; no claim exercises diacritics). -/
def localeCompareNat (s t : String) : Int :=
  ordToInt (lexCmp (tokenizeAux s.toList none) (tokenizeAux t.toList none))

/-- Sort direction of the component's sort state. -/
inductive Direction where
  | asc
  | desc
deriving DecidableEq

/-- The sort state `\x7b key, direction \x7d` of the component; the initial
state is `\x7b key: null, direction: 'asc' \x7d`. -/
structure SortState where
  key : Option String
  direction : Direction
deriving DecidableEq

/-- The `sort.direction === 'asc' ? cmp : -cmp` step of the comparator. -/
def directed (dir : Direction) (cmp : Int) : Int :=
  if dir = .asc then cmp else -cmp

/-- Comparison of two non-null values, as in the comparator body: numeric
difference when both are numbers, otherwise the locale comparison of their
string coercions. -/
def valCompare (aVal bVal : Value) : Int :=
  match aVal, bVal with
  | .num x, .num y => x - y
  | _, _ => localeCompareNat aVal.jsString bVal.jsString

/-- The comparator of `sortedData` (DataTable.jsx lines 45–61): nulls are
sent to the end before any direction handling, then numbers compare by
difference, everything else by natural locale comparison, and only that
non-null result is sign-flipped for descending order. -/
def rowCompare (key : String) (dir : Direction) (a b : Record) : Int :=
  if (a.get key).isNull && (b.get key).isNull then 0
  else if (a.get key).isNull then 1
  else if (b.get key).isNull then -1
  else directed dir (valCompare (a.get key) (b.get key))

/-- Stable insertion of `x` into `l`: `x` goes before the first element `y`
with `cmp x y ≤ 0`.  Placing `x` before elements that compare equal keeps the
sort stable, as `Array.prototype.sort` is required to be. -/
def insertCmp {α : Type} (cmp : α → α → Int) (x : α) : List α → List α
  | [] => [x]
  | y :: ys => if cmp x y ≤ 0 then x :: y :: ys else y :: insertCmp cmp x ys

/-- Stable sort by a JS comparator, modelling `array.sort(cmp)` on a copy. -/
def sortCmp {α : Type} (cmp : α → α → Int) : List α → List α
  | [] => []
  | x :: xs => insertCmp cmp x (sortCmp cmp xs)

/-- Definition `sortedData` (DataTable.jsx lines 42–63): pass-through when no
sort key is set, otherwise a stable sort of a copy (`[...filteredData]`) of
the filtered data by `rowCompare`. -/
def sortedData (filteredData : List Record) (sort : SortState) : List Record :=
  match sort.key with
  | none => filteredData
  | some k => sortCmp (rowCompare k sort.direction) filteredData

/-- Definition `handleSort` (DataTable.jsx lines 32–39): clicking the current
sort key flips the direction, clicking another key selects it ascending. -/
def handleSort (prev : SortState) (colKey : String) : SortState :=
  if prev.key = some colKey then
    { key := some colKey,
      direction := if prev.direction = .asc then .desc else .asc }
  else
    { key := some colKey, direction := .asc }

/-- Case-insensitive occurrence of `pat` inside `l` as a contiguous run. -/
def charsContains (l pat : List Char) : Bool :=
  pat.isPrefixOf l ||
    match l with
    | [] => false
    | _ :: tl => charsContains tl pat

/-- Case-insensitive substring test, folding both sides to lower case. -/
def containsCI (hay needle : String) : Bool :=
  charsContains (hay.toList.map Char.toLower) (needle.toList.map Char.toLower)

/-- Whether one record matches the search term on one field: an absent/null
field never matches, otherwise the string coercion of the value must contain
the term as a case-insensitive substring. -/
def matchesField (r : Record) (term : String) (f : String) : Bool :=
  match r.get f with
  | .null => false
  | v => containsCI v.jsString term

/-- Modelled from the spec: the filter of the hook `useSearch`
(`src/hooks/useSearch.js` is imported by DataTable.jsx but its file is not in
the source tree).  Spec §4.1: an empty term is the identity; otherwise a
record is included iff any field of the list, coerced to its string
representation, contains the term as a case-insensitive substring; relative
order is preserved. -/
def filterRecords (records : List Record) (term : String) (fields : List String) :
    List Record :=
  if term = "" then records
  else records.filter (fun r => fields.any (fun f => matchesField r term f))

/-- Modelled from the spec (§3): `totalPages = max(1, ceil(totalCount /
pageSize))` when `totalCount > 0`, else `0`; `usePagination` is not in the
source tree.  `(n + ps - 1) / ps` is the ceiling of `n / ps` for `ps > 0`. -/
def totalPagesOf (totalCount pageSize : Nat) : Nat :=
  if totalCount = 0 then 0 else max 1 ((totalCount + pageSize - 1) / pageSize)

/-- Modelled from the spec (§4.3): `pageIndex` is clamped into
`[0, totalPages-1]` before slicing, or to `0` when the collection is empty. -/
def clampIndex (totalPages idx : Nat) : Nat :=
  if totalPages = 0 then 0 else min idx (totalPages - 1)

/-- The outputs of the pagination stage, as the spec's `paginate` contract
lists them (§4.3) and as DataTable.jsx destructures them from the hook. -/
structure PageView where
  pageSlice : List Record
  totalPages : Nat
  totalCount : Nat
  page : Nat
  startIndexDisplay : Nat
  endIndexDisplay : Nat
  hasPrev : Bool
  hasNext : Bool
deriving DecidableEq

/-- Modelled from the spec: the hook `usePagination`
(`src/hooks/usePagination.js` is imported by DataTable.jsx but its file is
not in the source tree).  Spec §4.3: the page index is clamped on every
recomputation, the slice is the `pageSize`-bounded window at the clamped
index, the 1-based display bounds are `0` on an empty collection, and
`hasPrev`/`hasNext` reflect the two boundaries. -/
def paginate (records : List Record) (pageSize idx : Nat) : PageView :=
  let count := records.length
  let tp := totalPagesOf count pageSize
  let page := clampIndex tp idx
  { pageSlice := (records.drop (page * pageSize)).take pageSize
    totalPages := tp
    totalCount := count
    page := page
    startIndexDisplay := if count = 0 then 0 else page * pageSize + 1
    endIndexDisplay := if count = 0 then 0 else min count (page * pageSize + pageSize)
    hasPrev := decide (0 < page)
    hasNext := decide (page < tp - 1) }

/-- Modelled from the spec (§4.4 state machine): `next` is `pageIndex + 1`,
clamped. -/
def nextPageIdx (totalPages idx : Nat) : Nat := clampIndex totalPages (idx + 1)

/-- Modelled from the spec (§4.4 state machine): `prev` is `pageIndex - 1`,
clamped (at `0` by natural subtraction, as `max(0, idx - 1)` in JS). -/
def prevPageIdx (totalPages idx : Nat) : Nat := clampIndex totalPages (idx - 1)

/-- Definition `hasFirst` (DataTable.jsx line 69): `page > 0`. -/
def hasFirst (pv : PageView) : Bool := decide (0 < pv.page)

/-- Definition `hasLast` (DataTable.jsx line 70): `page < totalPages - 1`.
On `totalPages = 0` the JS comparison `0 < -1` and the `Nat` comparison
`0 < 0` are both false, so `Nat` subtraction is faithful here. -/
def hasLast (pv : PageView) : Bool := decide (pv.page < pv.totalPages - 1)

/-- One column descriptor, restricted to the props construction looks at. -/
structure Column where
  key : String
  label : String
  sortable : Bool
deriving DecidableEq

/-- The state DataTable.jsx sets up when the component function runs. -/
structure TableInit where
  columns : List Column
  safeData : List Record
  pageSize : Int
  sortKey : Option String
  sortDirection : Direction
deriving DecidableEq

/-- Construction of the table view (DataTable.jsx lines 16–30): prop
destructuring with a default `pageSize` of 50, `safeData = data || []`, and
the initial sort state `\x7b key: null, direction: 'asc' \x7d`.  The source
body contains no validation and no throw statement, so the `Except` error
channel of this embedding is never used. -/
def dataTableInit (columns : List Column) (data : Option (List Record))
    (pageSize : Option Int) : Except String TableInit :=
  Except.ok
    { columns := columns
      safeData := data.getD []
      pageSize := pageSize.getD 50
      sortKey := none
      sortDirection := Direction.asc }

/-- The `safeData = data || []` fallback (DataTable.jsx line 24). -/
def safeDataOf (data : Option (List Record)) : List Record := data.getD []

/-- The empty-state table cell (DataTable.jsx lines 122–127): shown only when
the page slice is empty; it reads `'No data available'` when the raw
collection itself is empty and `'No results match your filters'` otherwise. -/
def emptyMessage (safeData pageData : List Record) : Option String :=
  if pageData.length = 0 then
    some (if safeData.length = 0 then "No data available"
          else "No results match your filters")
  else none

/-- The whole view pipeline of DataTable.jsx: filter, then sort, then
paginate, on the null-guarded raw data. -/
def pipeline (data : Option (List Record)) (term : String) (fields : List String)
    (sortSt : SortState) (pageSize idx : Nat) : PageView :=
  paginate (sortedData (filterRecords (safeDataOf data) term fields) sortSt)
    pageSize idx

/-- Record with `val: 5` from the spec's null-ordering example (§8). -/
def recA : Record := ⟨[("val", Value.num 5)]⟩

/-- Record with `val: null` from the spec's null-ordering example (§8). -/
def recB : Record := ⟨[("val", Value.null)]⟩

/-- Record with `val: 2` from the spec's null-ordering example (§8). -/
def recC : Record := ⟨[("val", Value.num 2)]⟩

/-- Record named `item2` from the spec's natural-ordering example (§8). -/
def rec2 : Record := ⟨[("name", Value.str "item2")]⟩

/-- Record named `item10` from the spec's natural-ordering example (§8). -/
def rec10 : Record := ⟨[("name", Value.str "item10")]⟩

theorem natCmp_swap (a b : Nat) : natCmp a b = (natCmp b a).swap := by
  unfold natCmp
  rcases Nat.lt_trichotomy a b with h | h | h
  · have h2 : ¬b < a := by omega
    simp [h, h2, Ordering.swap]
  · subst h
    simp [Nat.lt_irrefl, Ordering.swap]
  · have h2 : ¬a < b := by omega
    simp [h, h2, Ordering.swap]

theorem tokCmp_swap (a b : Tok) : tokCmp a b = (tokCmp b a).swap := by
  cases a with
  | numTok v =>
    cases b with
    | numTok w => simpa [tokCmp] using natCmp_swap v w
    | chrTok c => simp [tokCmp, Ordering.swap]
  | chrTok c =>
    cases b with
    | numTok w => simp [tokCmp, Ordering.swap]
    | chrTok d => simpa [tokCmp] using natCmp_swap c.toNat d.toNat

theorem lexCmp_swap : ∀ a b : List Tok, lexCmp a b = (lexCmp b a).swap
  | [], [] => by simp [lexCmp, Ordering.swap]
  | [], _ :: _ => by simp [lexCmp, Ordering.swap]
  | _ :: _, [] => by simp [lexCmp, Ordering.swap]
  | a :: as, b :: bs => by
    simp only [lexCmp]
    rw [tokCmp_swap a b]
    cases tokCmp b a
    · simp [Ordering.swap]
    · simpa [Ordering.swap] using lexCmp_swap as bs
    · simp [Ordering.swap]

theorem ordToInt_swap (o : Ordering) : ordToInt o.swap = -ordToInt o := by
  cases o <;> simp [ordToInt, Ordering.swap]

theorem localeCompareNat_swap (s t : String) :
    localeCompareNat s t = -localeCompareNat t s := by
  unfold localeCompareNat
  rw [lexCmp_swap]
  exact ordToInt_swap _

theorem valCompare_swap (a b : Value) : valCompare a b = -valCompare b a := by
  cases a <;> cases b <;>
    simp only [valCompare] <;>
    first
      | omega
      | apply localeCompareNat_swap

theorem rowCompare_swap (k : String) (d : Direction) (a b : Record) :
    rowCompare k d a b = -rowCompare k d b a := by
  unfold rowCompare
  by_cases ha : (Record.get a k).isNull <;> by_cases hb : (Record.get b k).isNull
  · simp [ha, hb]
  · simp [ha, hb]
  · simp [ha, hb]
  · simp only [ha, hb, Bool.false_and, Bool.and_false, if_neg, ite_false,
      Bool.false_eq_true]
    rw [valCompare_swap (Record.get a k) (Record.get b k)]
    unfold directed
    split <;> omega

theorem rowCompare_total (k : String) (d : Direction) (a b : Record) :
    rowCompare k d a b ≤ 0 ∨ rowCompare k d b a ≤ 0 := by
  rcases le_or_lt (rowCompare k d a b) 0 with h | h
  · exact Or.inl h
  · right
    rw [rowCompare_swap k d b a]
    omega

theorem insertCmp_head? {α : Type} (cmp : α → α → Int) (x : α) (l : List α) :
    (insertCmp cmp x l).head? = some x ∨ (insertCmp cmp x l).head? = l.head? := by
  cases l with
  | nil => left; rfl
  | cons y ys =>
    by_cases h : cmp x y ≤ 0
    · left; simp [insertCmp, h]
    · right; simp [insertCmp, h]

theorem chain'_insertCmp {α : Type} (cmp : α → α → Int)
    (total : ∀ x y, cmp x y ≤ 0 ∨ cmp y x ≤ 0) (x : α) :
    ∀ l : List α, List.Chain' (fun p q => cmp p q ≤ 0) l →
      List.Chain' (fun p q => cmp p q ≤ 0) (insertCmp cmp x l) := by
  intro l
  induction l with
  | nil => intro _; simp [insertCmp]
  | cons y ys ih =>
    intro hch
    by_cases h : cmp x y ≤ 0
    · simp only [insertCmp, if_pos h]
      exact List.chain'_cons.mpr ⟨h, hch⟩
    · simp only [insertCmp, if_neg h]
      apply List.chain'_cons'.mpr
      refine ⟨?_, ih hch.tail⟩
      intro z hz
      rcases insertCmp_head? cmp x ys with hh | hh
      · rw [hh] at hz
        simp at hz
        subst hz
        rcases total x y with h1 | h1
        · exact absurd h1 h
        · exact h1
      · rw [hh] at hz
        exact (List.chain'_cons'.mp hch).1 z hz

theorem chain'_sortCmp {α : Type} (cmp : α → α → Int)
    (total : ∀ x y, cmp x y ≤ 0 ∨ cmp y x ≤ 0) :
    ∀ l : List α, List.Chain' (fun p q => cmp p q ≤ 0) (sortCmp cmp l)
  | [] => List.chain'_nil
  | x :: xs => chain'_insertCmp cmp total x _ (chain'_sortCmp cmp total xs)

theorem sortCmp_eq_of_chain' {α : Type} (cmp : α → α → Int) :
    ∀ l : List α, List.Chain' (fun p q => cmp p q ≤ 0) l → sortCmp cmp l = l := by
  intro l
  induction l with
  | nil => intro _; rfl
  | cons x xs ih =>
    intro hch
    show insertCmp cmp x (sortCmp cmp xs) = x :: xs
    rw [ih hch.tail]
    cases xs with
    | nil => rfl
    | cons y ys =>
      have hxy : cmp x y ≤ 0 := (List.chain'_cons.mp hch).1
      simp [insertCmp, hxy]

theorem sortCmp_idem {α : Type} (cmp : α → α → Int)
    (total : ∀ x y, cmp x y ≤ 0 ∨ cmp y x ≤ 0) (l : List α) :
    sortCmp cmp (sortCmp cmp l) = sortCmp cmp l :=
  sortCmp_eq_of_chain' cmp _ (chain'_sortCmp cmp total l)

theorem insertCmp_perm {α : Type} (cmp : α → α → Int) (x : α) :
    ∀ l : List α, (insertCmp cmp x l).Perm (x :: l) := by
  intro l
  induction l with
  | nil => exact List.Perm.refl _
  | cons y ys ih =>
    by_cases h : cmp x y ≤ 0
    · simp [insertCmp, h]
    · simp only [insertCmp, if_neg h]
      exact (ih.cons y).trans (List.Perm.swap x y ys)

theorem sortCmp_perm {α : Type} (cmp : α → α → Int) :
    ∀ l : List α, (sortCmp cmp l).Perm l
  | [] => List.Perm.refl _
  | x :: xs => (insertCmp_perm cmp x (sortCmp cmp xs)).trans ((sortCmp_perm cmp xs).cons x)

theorem rowCompare_le_null (k : String) (d : Direction) (a b : Record)
    (h : rowCompare k d a b ≤ 0) (ha : (a.get k).isNull = true) :
    (b.get k).isNull = true := by
  by_cases hb : (Record.get b k).isNull
  · exact hb
  · unfold rowCompare at h
    rw [ha] at h
    simp only [hb, Bool.true_and, Bool.false_eq_true, if_false, if_true] at h
    omega

theorem valCompare_eq_locale (a b : Value) (h : (a.isNum && b.isNum) = false) :
    valCompare a b = localeCompareNat a.jsString b.jsString := by
  cases a <;> cases b <;> simp_all [valCompare, Value.isNum]

/-- C1: for every collection of records and every sort key, sorting with that
key places every record whose value for the key is absent/null after every
record with a non-null value, under both directions; on the spec's records
A (val 5), B (val null), C (val 2), ascending sort by `val` yields
[C, A, B] and descending yields [A, C, B]. -/
theorem sort_nulls_last :
    (∀ (l : List Record) (k : String) (d : Direction),
        List.Pairwise
          (fun a b => (a.get k).isNull = true → (b.get k).isNull = true)
          (sortedData l ⟨some k, d⟩)) ∧
    sortedData [recA, recB, recC] ⟨some "val", Direction.asc⟩
      = [recC, recA, recB] ∧
    sortedData [recA, recB, recC] ⟨some "val", Direction.desc⟩
      = [recA, recC, recB] := by
  refine ⟨?_, by decide, by decide⟩
  intro l k d
  haveI : IsTrans Record
      (fun a b => (a.get k).isNull = true → (b.get k).isNull = true) :=
    ⟨fun _ _ _ hab hbc ha => hbc (hab ha)⟩
  have hch := chain'_sortCmp (rowCompare k d) (rowCompare_total k d) l
  have hch2 := hch.imp (fun a b h ha => rowCompare_le_null k d a b h ha)
  exact List.chain'_iff_pairwise.mp hch2

/-- C3: applying the sort a second time with the same key and direction to
the result of the first sort yields the identical sequence. -/
theorem sort_idempotent (l : List Record) (s : SortState) :
    sortedData (sortedData l s) s = sortedData l s := by
  obtain ⟨key, d⟩ := s
  cases key with
  | none => rfl
  | some k => exact sortCmp_idem (rowCompare k d) (rowCompare_total k d) l

/-- C9: the sort stage returns a reordering (a permutation) of the filtered
collection it reads; in this pure embedding of the source, which spreads the
filtered array into a fresh copy before the in-place sort, the input list is
unchanged by construction. -/
theorem sort_preserves_input (l : List Record) (s : SortState) :
    (sortedData l s).Perm l := by
  obtain ⟨key, d⟩ := s
  cases key with
  | none => exact List.Perm.refl l
  | some k => exact sortCmp_perm (rowCompare k d) l

/-- C4: whenever at least one of the two compared non-null sort-field values
is not a number, the comparator is the case-insensitive natural locale
comparison of the string coercions (sign-flipped only by the direction);
that comparison orders digit runs numerically, so `item2` precedes `item10`
ascending (from either input order) and case is ignored. -/
theorem sort_natural_string :
    (∀ (k : String) (d : Direction) (a b : Record),
        (a.get k).isNull = false → (b.get k).isNull = false →
        ((a.get k).isNum && (b.get k).isNum) = false →
        rowCompare k d a b =
          directed d (localeCompareNat (a.get k).jsString (b.get k).jsString)) ∧
    localeCompareNat "item2" "item10" = -1 ∧
    localeCompareNat "ITEM2" "item2" = 0 ∧
    sortedData [rec10, rec2] ⟨some "name", Direction.asc⟩ = [rec2, rec10] ∧
    sortedData [rec2, rec10] ⟨some "name", Direction.asc⟩ = [rec2, rec10] := by
  refine ⟨?_, by decide, by decide, by decide, by decide⟩
  intro k d a b ha hb hnum
  unfold rowCompare
  rw [ha, hb]
  simp only [Bool.false_and, Bool.false_eq_true, if_false]
  rw [valCompare_eq_locale _ _ hnum]

/-- C6: requesting a sort by the current key flips the direction while
keeping the key; requesting a sort by a different key selects that key with
ascending direction. -/
theorem handleSort_toggle (s : SortState) (K : String) :
    (s.key = some K →
      handleSort s K =
        ⟨some K,
          if s.direction = Direction.asc then Direction.desc
          else Direction.asc⟩) ∧
    (s.key ≠ some K → handleSort s K = ⟨some K, Direction.asc⟩) := by
  constructor
  · intro h
    simp [handleSort, h]
  · intro h
    simp [handleSort, h]

/-- Record named Lamp from the spec's search example (§8). -/
def lampRec : Record := ⟨[("name", Value.str "Lamp")]⟩

/-- Record named lamp2 from the spec's search example (§8). -/
def lamp2Rec : Record := ⟨[("name", Value.str "lamp2")]⟩

/-- Record named Fan from the spec's search example (§8). -/
def fanRec : Record := ⟨[("name", Value.str "Fan")]⟩

/-- C5: for a non-empty term, the filter is an order-preserving subsequence
of the input containing exactly the records for which some listed field,
coerced to a string, contains the term as a case-insensitive substring
(logical OR across fields); an absent/null field never matches. -/
theorem search_filter_spec (records : List Record) (term : String)
    (fields : List String) (h : term ≠ "") :
    (filterRecords records term fields).Sublist records ∧
    (∀ r : Record, r ∈ filterRecords records term fields ↔
      r ∈ records ∧ (fields.any fun f => matchesField r term f) = true) ∧
    (∀ r : Record,
      (fields.any fun f => matchesField r term f) = true ↔
        ∃ f ∈ fields, matchesField r term f = true) ∧
    (∀ (r : Record) (f : String), r.get f = Value.null →
      matchesField r term f = false) := by
  refine ⟨?_, ?_, ?_, ?_⟩
  · rw [filterRecords, if_neg h]
    exact List.filter_sublist records
  · intro r
    rw [filterRecords, if_neg h]
    exact List.mem_filter
  · intro r
    exact List.any_eq_true
  · intro r f hf
    simp [matchesField, hf]

theorem search_filter_spec_witness :
    ("lamp" ≠ "") ∧
    filterRecords [lampRec, lamp2Rec, fanRec] "lamp" ["name"]
      = [lampRec, lamp2Rec] ∧
    (filterRecords [lampRec, lamp2Rec, fanRec] "lamp" ["name"]).Sublist
      [lampRec, lamp2Rec, fanRec] :=
  ⟨by decide, by decide,
    (search_filter_spec [lampRec, lamp2Rec, fanRec] "lamp" ["name"]
      (by decide)).1⟩

theorem flatten_chunks {α : Type} (ps : Nat) (l : List α) :
    ∀ k : Nat,
      ((List.range k).map (fun i => (l.drop (i * ps)).take ps)).flatten
        = l.take (k * ps) := by
  intro k
  induction k with
  | zero => simp
  | succ n ih =>
    rw [List.range_succ, List.map_append, List.flatten_append, ih]
    simp only [List.map_cons, List.map_nil, List.flatten_cons, List.flatten_nil,
      List.append_nil]
    rw [Nat.succ_mul, List.take_add]

theorem le_ceil_mul (n ps : Nat) (hps : 0 < ps) :
    n ≤ (n + ps - 1) / ps * ps := by
  by_contra hlt
  push_neg at hlt
  have key : ∀ t : Nat, t < n → t + ps ≤ n + ps - 1 := by
    intro t ht
    omega
  have h2 : (n + ps - 1) / ps * ps + ps ≤ n + ps - 1 := key _ hlt
  have h1 : ((n + ps - 1) / ps + 1) * ps ≤ n + ps - 1 := by
    rw [Nat.succ_mul]
    exact h2
  have h3 : (n + ps - 1) / ps + 1 ≤ (n + ps - 1) / ps :=
    (Nat.le_div_iff_mul_le hps).mpr h1
  exact Nat.not_succ_le_self _ h3

theorem length_le_totalPages_mul (n ps : Nat) (hps : 0 < ps) :
    n ≤ totalPagesOf n ps * ps := by
  unfold totalPagesOf
  by_cases hn : n = 0
  · simp [hn]
  · rw [if_neg hn]
    calc n ≤ (n + ps - 1) / ps * ps := le_ceil_mul n ps hps
      _ ≤ max 1 ((n + ps - 1) / ps) * ps :=
        mul_le_mul_right' (le_max_right 1 _) ps

theorem paginate_slice_of_lt (l : List Record) (ps i : Nat)
    (hi : i < totalPagesOf l.length ps) :
    (paginate l ps i).pageSlice = (l.drop (i * ps)).take ps := by
  have h0 : totalPagesOf l.length ps ≠ 0 := by omega
  have hmin : min i (totalPagesOf l.length ps - 1) = i :=
    Nat.min_eq_left (by omega)
  simp [paginate, clampIndex, h0, hmin]

/-- C2: concatenating the page slices for pageIndex = 0 up to totalPages - 1
reproduces the filtered+sorted collection exactly, with no record duplicated
and none omitted. -/
theorem pagination_partition (l : List Record) (ps : Nat) (hps : 0 < ps) :
    ((List.range (paginate l ps 0).totalPages).map
        (fun i => (paginate l ps i).pageSlice)).flatten = l := by
  have htp : (paginate l ps 0).totalPages = totalPagesOf l.length ps := rfl
  rw [htp]
  have hmap : (List.range (totalPagesOf l.length ps)).map
      (fun i => (paginate l ps i).pageSlice) =
      (List.range (totalPagesOf l.length ps)).map
      (fun i => (l.drop (i * ps)).take ps) :=
    List.map_congr_left
      (fun i hi => paginate_slice_of_lt l ps i (List.mem_range.mp hi))
  rw [hmap, flatten_chunks]
  exact List.take_of_length_le (length_le_totalPages_mul l.length ps hps)

theorem pagination_partition_witness :
    0 < 2 ∧
    ((List.range (paginate [recA, recB, recC] 2 0).totalPages).map
        (fun i => (paginate [recA, recB, recC] 2 i).pageSlice)).flatten
      = [recA, recB, recC] :=
  ⟨by decide, pagination_partition [recA, recB, recC] 2 (by decide)⟩

theorem clampIndex_le_sub_one (tp idx : Nat) : clampIndex tp idx ≤ tp - 1 := by
  unfold clampIndex
  split
  · omega
  · exact Nat.min_le_right _ _

/-- C7: `hasPrev` holds exactly when the (clamped) page index is positive and
`hasNext` exactly when it is below `totalPages - 1`; the source-level
`hasFirst`/`hasLast` flags coincide with them; and a navigation request
issued when the corresponding flag is false leaves the page index unchanged
(and, being a total function, raises nothing). -/
theorem pagination_boundary (l : List Record) (ps idx : Nat) :
    ((paginate l ps idx).hasPrev = true ↔ 0 < (paginate l ps idx).page) ∧
    ((paginate l ps idx).hasNext = true ↔
      (paginate l ps idx).page < (paginate l ps idx).totalPages - 1) ∧
    hasFirst (paginate l ps idx) = (paginate l ps idx).hasPrev ∧
    hasLast (paginate l ps idx) = (paginate l ps idx).hasNext ∧
    ((paginate l ps idx).hasNext = false →
      nextPageIdx (paginate l ps idx).totalPages (paginate l ps idx).page
        = (paginate l ps idx).page) ∧
    ((paginate l ps idx).hasPrev = false →
      prevPageIdx (paginate l ps idx).totalPages (paginate l ps idx).page
        = (paginate l ps idx).page) := by
  have hpage : (paginate l ps idx).page
      = clampIndex (totalPagesOf l.length ps) idx := rfl
  have htp : (paginate l ps idx).totalPages = totalPagesOf l.length ps := rfl
  have hprev : (paginate l ps idx).hasPrev
      = decide (0 < (paginate l ps idx).page) := rfl
  have hnext : (paginate l ps idx).hasNext
      = decide ((paginate l ps idx).page < totalPagesOf l.length ps - 1) := rfl
  refine ⟨?_, ?_, rfl, rfl, ?_, ?_⟩
  · rw [hprev]
    simp
  · rw [hnext, htp]
    simp
  · intro h
    rw [hnext] at h
    have hnot : ¬(paginate l ps idx).page < totalPagesOf l.length ps - 1 :=
      of_decide_eq_false h
    have hle : (paginate l ps idx).page ≤ totalPagesOf l.length ps - 1 := by
      rw [hpage]
      exact clampIndex_le_sub_one _ _
    have heq : (paginate l ps idx).page = totalPagesOf l.length ps - 1 := by
      omega
    rw [htp, nextPageIdx]
    unfold clampIndex
    by_cases h0 : totalPagesOf l.length ps = 0
    · rw [if_pos h0]
      omega
    · rw [if_neg h0, heq, Nat.min_eq_right (by omega)]
  · intro h
    rw [hprev] at h
    have hnot : ¬0 < (paginate l ps idx).page := of_decide_eq_false h
    have heq : (paginate l ps idx).page = 0 := by omega
    rw [htp, heq, prevPageIdx]
    unfold clampIndex
    split
    · rfl
    · simp

/-- Column list with a duplicate key, for the construction counterexample. -/
def dupColumns : List Column :=
  [⟨"a", "A", true⟩, ⟨"a", "B", false⟩]

/-- C8 counterexample: constructing the table view with duplicate column keys
and a non-positive pageSize raises no configuration error; construction
completes normally, contradicting the claim that such a configuration fails
immediately at construction time. -/
theorem construction_rejects_nothing :
    decide (dupColumns.map Column.key).Nodup = false ∧
    dataTableInit dupColumns (some []) (some 0)
      = Except.ok ⟨dupColumns, [], 0, none, Direction.asc⟩ :=
  ⟨by decide, rfl⟩

/-- C8 amended: construction never validates its configuration; for every
column list (duplicate keys included) and every pageSize (non-positive
included) it succeeds, applying only the defaults `pageSize = 50`,
`safeData = data or []` and the initial ascending no-key sort state. -/
theorem construction_total (columns : List Column) (data : Option (List Record))
    (pageSize : Option Int) :
    dataTableInit columns data pageSize =
      Except.ok ⟨columns, data.getD [], pageSize.getD 50, none, Direction.asc⟩ :=
  rfl

theorem sortedData_nil (s : SortState) : sortedData [] s = [] := by
  obtain ⟨key, d⟩ := s
  cases key with
  | none => rfl
  | some k => rfl

/-- C10: null/undefined raw data behaves as the empty collection: every
derived collection is empty and nothing fails (all stages are total); when
the page slice is empty, the message is exactly `No data available` when the
raw collection is empty, and `No results match your filters` when a
non-empty collection was reduced to nothing. -/
theorem null_data_safe (term : String) (fields : List String) (s : SortState)
    (ps idx : Nat) :
    safeDataOf none = [] ∧
    filterRecords (safeDataOf none) term fields = [] ∧
    sortedData (filterRecords (safeDataOf none) term fields) s = [] ∧
    (pipeline none term fields s ps idx).pageSlice = [] ∧
    (pipeline none term fields s ps idx).totalCount = 0 ∧
    emptyMessage (safeDataOf none) (pipeline none term fields s ps idx).pageSlice
      = some "No data available" ∧
    (∀ (safe pageData : List Record),
      emptyMessage safe pageData = some "No data available" ↔
        pageData.length = 0 ∧ safe.length = 0) ∧
    (∀ (safe pageData : List Record),
      pageData.length = 0 → safe.length ≠ 0 →
        emptyMessage safe pageData = some "No results match your filters") := by
  have hfilter : filterRecords (safeDataOf none) term fields = [] := by
    unfold filterRecords safeDataOf
    split <;> simp
  have hsorted : sortedData (filterRecords (safeDataOf none) term fields) s
      = [] := by
    rw [hfilter]
    exact sortedData_nil s
  have hpipe : pipeline none term fields s ps idx = paginate [] ps idx := by
    unfold pipeline
    rw [hsorted]
  refine ⟨rfl, hfilter, hsorted, ?_, ?_, ?_, ?_, ?_⟩
  · rw [hpipe]
    simp [paginate]
  · rw [hpipe]
    rfl
  · rw [hpipe]
    have hslice : (paginate [] ps idx).pageSlice = [] := by
      simp [paginate]
    rw [hslice]
    rfl
  · intro safe pageData
    by_cases h1 : pageData.length = 0 <;> by_cases h2 : safe.length = 0 <;>
      simp [emptyMessage, h1, h2]
  · intro safe pageData h1 h2
    simp [emptyMessage, h1, h2]

end DataTable
